import Mathlib

/-!
Shallow embedding of `frank/radial_fitters.py` (classes `HankelRegressor`,
`FourierBesselFitter`, `FrankFitter`) over exact rationals.

Conventions used throughout:
* numpy 1D arrays of length `n` are `Fin n → ℚ`; 2D arrays are
  `Matrix (Fin n) (Fin n) ℚ`; the raw visibility data streams are `List ℚ`.
* `scipy.linalg.cho_factor` / `cho_solve` / `svd` are external library
  routines; they are modelled as an oracle record (`LinAlg`).  `cho_factor`
  returning `none` models `scipy` raising `numpy.linalg.LinAlgError`
  (matrix not numerically positive definite); `svd` returns the triple
  `(U, s, Vh)` with `A = U @ diag(s) @ Vh`.
* the `DiscreteHankelTransform` object is code of the repository that is not
  part of the analysed module; following the spec it is an external leaf and
  only enters through its coefficient matrix `Ykm = DHT.coefficients()`
  (respectively the row function `coeff q = DHT.coefficients(q)`), which is
  kept as an explicit parameter.
* Python exceptions are modelled with `Except String`.
-/

namespace Frankenstein

/-- Length-`n` numpy vector over exact rationals. -/
abbrev Vec (n : ℕ) : Type := Fin n → ℚ

/-- Square numpy matrix of size `n` over exact rationals. -/
abbrev Mat (n : ℕ) : Type := Matrix (Fin n) (Fin n) ℚ

/-- Embeds `np.where(x > 0, 1./x, 0)`, used both for the per-mode prior
precision (`radial_fitters.py` line 69) and for the reciprocal singular
values in the SVD fallback (line 106). -/
def posRecip {n : ℕ} (x : Vec n) : Vec n := fun k => if 0 < x k then 1 / x k else 0

/-- Embeds the prior precision matrix construction of
`HankelRegressor.__init__` (lines 68-70):
`Sinv = np.einsum('ji,j,jk->ik', Ykm, p1, Ykm)` with
`p1 = np.where(p > 0, 1./p, 0)`. -/
def Sinv_of {n : ℕ} (Ykm : Mat n) (p : Vec n) : Mat n :=
  Matrix.of fun i k => ∑ j, Ykm j i * posRecip p j * Ykm j k

/-- Oracle record for the external `scipy.linalg` routines used by
`HankelRegressor._fit` and `HankelRegressor.Dsolve`.  `choFactor` returns
`some c` when `scipy.linalg.cho_factor` succeeds (with `c` the opaque factor
object) and `none` when it raises `LinAlgError`; `choSolveVec`/`choSolveMat`
model `scipy.linalg.cho_solve` for a vector or matrix right-hand side;
`svd` models `scipy.linalg.svd(Dinv, full_matrices=False)` for the square
input used here, returning `(U, s, Vh)`. -/
structure LinAlg (n : ℕ) where
  choFactor : Mat n → Option (Mat n)
  choSolveVec : Mat n → Vec n → Vec n
  choSolveMat : Mat n → Mat n → Mat n
  svd : Mat n → Mat n × Vec n × Mat n

/-- State of a constructed `HankelRegressor` (lines 60-114).  Field map:
`M = self._M`, `j = self._j`, `p = self._p`, `Sinv = self._Sinv`
(`none` models Python `None`), `likeNoise = self._like_noise`,
`Dchol = self._Dchol`, `Dsvd = self._Dsvd` (holding `(U, s1, V)` with the
already-reciprocated singular values, exactly as stored at line 109),
`mu = self._mu`. -/
structure HankelRegressor (n : ℕ) where
  M : Mat n
  j : Vec n
  p : Option (Vec n)
  Sinv : Option (Mat n)
  likeNoise : ℚ
  Dchol : Option (Mat n)
  Dsvd : Option (Mat n × Vec n × Mat n)
  mu : Vec n
deriving DecidableEq

/-- Embeds the vector-right-hand-side branch of the SVD solve
`np.dot(V.T, np.multiply(np.dot(U.T, b), s1))` (lines 111 and 133): for a
1D `b`, `np.multiply` is the elementwise product, so this is
`Vᵀ ⬝ (s1 ∘ (Uᵀ ⬝ b))`. -/
def svdApplyVec {n : ℕ} (U : Mat n) (s1 : Vec n) (Vh : Mat n) (b : Vec n) : Vec n :=
  Matrix.mulVec Vh.transpose (fun k => s1 k * Matrix.mulVec U.transpose b k)

/-- Embeds the same line `np.dot(V.T, np.multiply(np.dot(U.T, b), s1))` for a
2D right-hand side `B` (as used by `covariance`, line 214): numpy broadcasts
the length-`n` array `s1` along the LAST axis of the `n × n` product
`U.T @ B`, i.e. it scales COLUMN `k` by `s1 k`.  Hence the computed value is
`Vᵀ ⬝ (Uᵀ ⬝ B) ⬝ diag(s1)` (and not the pseudo-inverse applied to `B`). -/
def svdApplyMat {n : ℕ} (U : Mat n) (s1 : Vec n) (Vh : Mat n) (B : Mat n) : Mat n :=
  Vh.transpose * ((U.transpose * B) * Matrix.diagonal s1)

/-- Embeds `HankelRegressor.__init__` followed by `HankelRegressor._fit`
(lines 60-114): build `Sinv` from `p` when given, form `Dinv = M + Sinv`,
try Cholesky, and on `LinAlgError` fall back to the SVD pseudo-inverse with
`s1 = np.where(s > 0, 1./s, 0)`, recording whichever factorization
succeeded in `Dchol`/`Dsvd` and computing `mu`. -/
def hankelRegressor {n : ℕ} (la : LinAlg n) (Ykm M : Mat n) (j : Vec n)
    (p : Option (Vec n)) (likeNoise : ℚ) : HankelRegressor n :=
  let Sinv : Option (Mat n) := p.map (Sinv_of Ykm)
  let Dinv : Mat n := M + Sinv.getD 0
  match la.choFactor Dinv with
  | some c => ⟨M, j, p, Sinv, likeNoise, some c, none, la.choSolveVec c j⟩
  | none =>
      let t := la.svd Dinv
      let s1 := posRecip t.2.1
      ⟨M, j, p, Sinv, likeNoise, none, some (t.1, s1, t.2.2),
        svdApplyVec t.1 s1 t.2.2 j⟩

/-- Embeds `HankelRegressor.Dsolve` (lines 116-133) for a vector right-hand
side: use the cached Cholesky factor when `_Dchol is not None`, otherwise
the cached `(U, s1, V)` triple.  (The final `0` arm is unreachable for any
constructor-produced instance, where one of the two caches is set.) -/
def Dsolve {n : ℕ} (la : LinAlg n) (r : HankelRegressor n) (b : Vec n) : Vec n :=
  match r.Dchol with
  | some c => la.choSolveVec c b
  | none =>
    match r.Dsvd with
    | some t => svdApplyVec t.1 t.2.1 t.2.2 b
    | none => 0

/-- Embeds `HankelRegressor.Dsolve` for a matrix right-hand side (the
`b : array, size=(N,...)` case of its docstring), with numpy broadcasting
semantics as in `svdApplyMat`. -/
def DsolveMat {n : ℕ} (la : LinAlg n) (r : HankelRegressor n) (B : Mat n) : Mat n :=
  match r.Dchol with
  | some c => la.choSolveMat c B
  | none =>
    match r.Dsvd with
    | some t => svdApplyMat t.1 t.2.1 t.2.2 B
    | none => 0

/-- Embeds the `covariance` property (lines 211-215): on first access the
cache is empty and the value is `self.Dsolve(np.eye(self.size))`. -/
def covariance {n : ℕ} (la : LinAlg n) (r : HankelRegressor n) : Mat n :=
  DsolveMat la r 1

/-- Embeds the `I is None` branch of `HankelRegressor.log_likelihood`
(lines 172-177 and 190).  The code first computes
`like = 0.5 * np.sum(self._j * self._mu)`; then, when a prior is present
(`self._Sinv is not None`), it evaluates `self._Dsolve(self._Sinv)` — but
the object has no attribute `_Dsolve` (the method is named `Dsolve`), so
Python raises `AttributeError` and the call never returns. -/
def logLikelihoodMarginal {n : ℕ} (r : HankelRegressor n) : Except String ℚ :=
  match r.Sinv with
  | none => Except.ok (1 / 2 * (∑ k, r.j k * r.mu k) + r.likeNoise)
  | some _ =>
      Except.error "AttributeError: HankelRegressor object has no attribute _Dsolve"

/-- Embeds `FrankFitter.fit_powerspectrum` (lines 586-600):
`HankelRegressor(self._DHT, self._M, self._j, p, noise_likelihood=self._H0)`. -/
def fit_powerspectrum {n : ℕ} (la : LinAlg n) (Ykm M : Mat n) (j : Vec n) (H0 : ℚ)
    (p : Vec n) : HankelRegressor n :=
  hankelRegressor la Ykm M j (some p) H0

/-! ### Design-matrix assembly (`FourierBesselFitter._build_matrices`, lines 273-309)

The three equal-length data arrays `q`, `w`, `V` are sliced with identical
index ranges `start:end`, so the parallel arrays are modelled as one list of
triples `(q_a, w_a, V_a)`; a Python slice of all three arrays is a
`take`/`drop` of that list.  The DHT coefficient row for a frequency value
is the external leaf `coeff : ℚ → Fin n → ℚ` (so `X = DHT.coefficients(qs)`
has rows `coeff q_a`). -/

/-- One chunk's contribution to `M`: `np.dot(wXT, X)` with
`wXT = X.T * ws`, i.e. `M[m,m'] = Σ_a coeff q_a m * w_a * coeff q_a m'`
(lines 295-299). -/
def chunkM {n : ℕ} (coeff : ℚ → Fin n → ℚ) (d : List (ℚ × ℚ × ℚ)) : Mat n :=
  Matrix.of fun m m' => (d.map (fun t => coeff t.1 m * t.2.1 * coeff t.1 m')).sum

/-- One chunk's contribution to `j`: `np.dot(wXT, Vs)`, i.e.
`j[m] = Σ_a coeff q_a m * w_a * V_a` (line 300). -/
def chunkJ {n : ℕ} (coeff : ℚ → Fin n → ℚ) (d : List (ℚ × ℚ × ℚ)) : Vec n :=
  fun m => (d.map (fun t => coeff t.1 m * t.2.1 * t.2.2)).sum

/-- Embeds the `while start < Ndata` accumulation loop of `_build_matrices`
(lines 288-303): process `Nstep` samples at a time, adding each chunk's
contribution to the running `M` and `j`.  The loop is written with explicit
fuel; with `1 ≤ Nstep` a fuel of `d.length` always suffices, and with
`Nstep = 0` the Python loop would not terminate (fuel exhaustion models
that divergence). -/
def buildLoop {n : ℕ} (coeff : ℚ → Fin n → ℚ) (Nstep : ℕ) :
    ℕ → List (ℚ × ℚ × ℚ) → Mat n → Vec n → Mat n × Vec n
  | _, [], M, j => (M, j)
  | 0, _, M, j => (M, j)
  | fuel + 1, d, M, j =>
      buildLoop coeff Nstep fuel (d.drop Nstep)
        (M + chunkM coeff (d.take Nstep)) (j + chunkJ coeff (d.take Nstep))

/-- Embeds `FourierBesselFitter._build_matrices` (lines 273-309) for
equal-length 1D inputs.  `Nstep` is the chunk length chosen at lines 279-283
(`block_size // N + 1` when blocking, else `len(V)`); `logw` is the external
real function `x ↦ np.log(x / (2π))` appearing in the `H0` normalization
(line 309), kept abstract because it is transcendental; the result is the
triple `(self._M, self._j, self._H0)`.  Note `H0` is computed from the full
arrays outside the chunk loop. -/
def build_matrices {n : ℕ} (coeff : ℚ → Fin n → ℚ) (logw : ℚ → ℚ) (Nstep : ℕ)
    (q V weights : List ℚ) : Mat n × Vec n × ℚ :=
  ((buildLoop coeff Nstep (q.zip (weights.zip V)).length (q.zip (weights.zip V)) 0 0).1,
    (buildLoop coeff Nstep (q.zip (weights.zip V)).length (q.zip (weights.zip V)) 0 0).2,
    1 / 2 * ((weights.zip V).map (fun t => logw t.1 - t.2 * t.1 * t.2)).sum)

/-! ### The power-spectrum iteration of `FrankFitter.fit` (lines 487-521)

The loop state is `(pi, pi_old, fit, count)`.  The per-step update of `pi`
(lines 495-504: the trace terms, `beta`, and
`np.exp(sparse_solve(Tij_pI, beta + np.log(pi)))`) involves the
transcendental functions `exp`/`log` and the external sparse solver, so it
is kept as an explicit parameter `update : pi → fit → pi_new`; everything
the analysed claims speak about — the loop guard, the step counter, and
what is returned — is embedded literally. -/

/-- Embeds the loop guard's first conjunct
`np.any(np.abs(pi - pi_old) > self._tol * np.abs(pi))` (line 489). -/
def anyExceeds {n : ℕ} (tol : ℚ) (pNew pOld : Vec n) : Prop :=
  ∃ k, tol * |pNew k| < |pNew k - pOld k|

instance {n : ℕ} (tol : ℚ) (a b : Vec n) : Decidable (anyExceeds tol a b) := by
  unfold anyExceeds; infer_instance

/-- Loop state of the power-spectrum iteration: `pi` and `piOld` are the
current and previous trial spectra, `sol` is the `fit` variable (the
`HankelRegressor` of the current spectrum), `count` the step counter. -/
structure PSLoopState (n : ℕ) where
  pi : Vec n
  piOld : Vec n
  sol : HankelRegressor n
  count : ℕ

/-- Embeds the `while` loop of `FrankFitter.fit` (lines 487-511):
`while np.any(np.abs(pi - pi_old) > tol * np.abs(pi)) and count <= max_iter:`
then `pi_new = update(pi, fit)`, `pi_old = pi`, `pi = pi_new`,
`fit = self.fit_powerspectrum(pi)`, `count += 1`.  Written with fuel; since
`count` increases by one per step and the guard requires
`count ≤ maxIter`, a fuel of `maxIter + 2` always reaches the exit. -/
def psIterAux {n : ℕ} (la : LinAlg n) (Ykm M : Mat n) (j : Vec n) (H0 : ℚ)
    (upd : Vec n → HankelRegressor n → Vec n) (tol : ℚ) (maxIter : ℕ) :
    ℕ → PSLoopState n → PSLoopState n
  | 0, s => s
  | fuel + 1, s =>
      if anyExceeds tol s.pi s.piOld ∧ s.count ≤ maxIter then
        let piNew := upd s.pi s.sol
        psIterAux la Ykm M j H0 upd tol maxIter fuel
          ⟨piNew, s.pi, fit_powerspectrum la Ykm M j H0 piNew, s.count + 1⟩
      else s

/-- The whole iteration phase of `FrankFitter.fit`, entered with
`count = 0` and `pi_old = 0` (line 487-488; the scalar `0` broadcasts
against `pi`, i.e. acts as the zero vector), from an initial trial spectrum
`pi0` and its fit `sol0` (produced by the pre-loop seeding, lines 465-482). -/
def psIter {n : ℕ} (la : LinAlg n) (Ykm M : Mat n) (j : Vec n) (H0 : ℚ)
    (upd : Vec n → HankelRegressor n → Vec n) (tol : ℚ) (maxIter : ℕ)
    (pi0 : Vec n) (sol0 : HankelRegressor n) : PSLoopState n :=
  psIterAux la Ykm M j H0 upd tol maxIter (maxIter + 2) ⟨pi0, 0, sol0, 0⟩

/-- What `FrankFitter.fit` returns (lines 514-521): `self._sol = fit` of the
final loop state, with no further information attached. -/
def frankFitResult {n : ℕ} (la : LinAlg n) (Ykm M : Mat n) (j : Vec n) (H0 : ℚ)
    (upd : Vec n → HankelRegressor n → Vec n) (tol : ℚ) (maxIter : ℕ)
    (pi0 : Vec n) (sol0 : HankelRegressor n) : HankelRegressor n :=
  (psIter la Ykm M j H0 upd tol maxIter pi0 sol0).sol

/-- Embeds `FrankFitter.log_prior` (lines 602-636).  After substituting the
default (`p = self._ps` when `p` is omitted) and building the smoothing
matrix, the body evaluates `xi = self._p0 / pi` — but `pi` is an undefined
name (the parameter is `p` and no global `pi` exists in the module), so
every call raises `NameError` and no value is ever returned. -/
def log_prior {n : ℕ} (p0 alpha wsmooth : ℚ) (psMAP : Vec n)
    (p : Option (Vec n)) : Except String ℚ :=
  let _pLocal := p.getD psMAP
  Except.error "NameError: name pi is not defined"

/-- Embeds `FourierBesselFitter.fit` (lines 311-334).  Its first statement
is `self._build_matrices(q, V, w)`, where `w` is an undefined name (the
parameter is `weights` and no global `w` exists), so Python raises
`NameError` before any matrix is built or any `HankelRegressor` is
constructed. -/
def fourierBesselFit (n : ℕ) (q V weights : List ℚ) :
    Except String (HankelRegressor n) :=
  Except.error "NameError: name w is not defined"

/-! ### Concrete instances used in witnesses and counterexamples -/

/-- A `LinAlg` oracle for `n = 1` in which Cholesky always succeeds (the
factor object is the matrix itself) and solves are the identity; used only
to build small concrete regressors and loop runs. -/
def la1 : LinAlg 1 :=
  ⟨fun A => some A, fun _ b => b, fun _ B => B, fun _ => (1, fun _ => 1, 1)⟩

/-- A concrete regressor used as the loop-entry `fit` in small runs. -/
def sol1 : HankelRegressor 1 := hankelRegressor la1 1 1 0 none 0

/-- The constant spectrum `(1)`. -/
def onePS : Vec 1 := fun _ => 1

/-- The constant spectrum `(3)`. -/
def threePS : Vec 1 := fun _ => 3

/-- A power-spectrum update that always proposes `(3)`: starting from
`(1)` the relative tolerance `1/2` is never met. -/
def updK : Vec 1 → HankelRegressor 1 → Vec 1 := fun _ _ => threePS

/-- The identity power-spectrum update: the iteration converges after one
step. -/
def updId1 : Vec 1 → HankelRegressor 1 → Vec 1 := fun p _ => p

/-- Singular-value vector `(10⁻⁹, 0)`: one near-zero positive value and one
exact zero, in scipy's descending order. -/
def sNZ : Vec 2 := fun k => if k = 0 then 1 / 1000000000 else 0

/-- The matrix `diag(10⁻⁹, 0)`.  It is positive semi-definite and singular,
so `scipy.linalg.cho_factor` genuinely raises `LinAlgError` on it (the
second pivot is 0), and `(U, s, Vh) = (I, sNZ, I)` is a valid SVD of it. -/
def MN : Mat 2 := Matrix.diagonal sNZ

/-- Oracle reproducing scipy's behaviour on `MN`: Cholesky fails, and the
SVD returned is the exact `(I, sNZ, I)`. -/
def laNZ : LinAlg 2 :=
  ⟨fun _ => none, fun _ b => b, fun _ B => B, fun _ => (1, sNZ, 1)⟩

/-- The vector `(3, 4)`. -/
def v8 : Vec 2 := fun k => if k = 0 then 3 else 4

/-- The rank-one matrix `v8 v8ᵀ = [[9, 12], [12, 16]]`: symmetric, positive
semi-definite and singular, so `scipy.linalg.cho_factor` genuinely raises
`LinAlgError` on it (the second pivot is `16 − 12²/9 = 0`). -/
def M8 : Mat 2 := Matrix.of fun i k => v8 i * v8 k

/-- Orthogonal factor `U = [[3/5, 4/5], [4/5, −3/5]]` of an SVD of `M8`. -/
def U8 : Mat 2 := Matrix.of fun i k =>
  if i = 0 then (if k = 0 then 3 / 5 else 4 / 5)
  else (if k = 0 then 4 / 5 else -(3 / 5))

/-- Transposed orthogonal factor `Vh = [[3/5, 4/5], [−4/5, 3/5]]` of the
same SVD: the first right-singular vector equals the first left one (forced
for a symmetric PSD matrix at a positive singular value), the null-space
vector carries the opposite sign — a legitimate choice for any SVD
routine, since it leaves `U·diag(s)·Vh = M8` untouched. -/
def V8h : Mat 2 := Matrix.of fun i k =>
  if i = 0 then (if k = 0 then 3 / 5 else 4 / 5)
  else (if k = 0 then -(4 / 5) else 3 / 5)

/-- Singular values `(25, 0)` of `M8`, in descending order. -/
def s8 : Vec 2 := fun k => if k = 0 then 25 else 0

/-- Oracle reproducing scipy's behaviour on `M8`: Cholesky raises
`LinAlgError`, and the SVD returned is `(U8, s8, V8h)`. -/
def la8 : LinAlg 2 :=
  ⟨fun _ => none, fun _ b => b, fun _ B => B, fun _ => (U8, s8, V8h)⟩

/-- The regressor built on the design matrix `M8` with no prior: the
Cholesky attempt fails and the SVD fallback is recorded. -/
def r8 : HankelRegressor 2 := hankelRegressor la8 1 M8 0 none 0

/-- The value `[[−7/625, 0], [24/625, 0]]` that the buggy matrix-`Dsolve`
produces as `covariance` on `r8` (see `covariance_svd_path_not_psd`). -/
def C8val : Mat 2 := Matrix.of fun i k =>
  if k = 0 then (if i = 0 then -(7 / 625) else 24 / 625) else 0

/-- DHT coefficient row function used in concrete design-matrix runs. -/
def cW : ℚ → Fin 2 → ℚ := fun x _ => x

/-- Concrete stand-in for the abstract `x ↦ log(x / 2π)` in witnesses. -/
def zW : ℚ → ℚ := fun _ => 0

/-! ### Theorems -/

/-- Helper: the covariance computed on the SVD-fallback path of `r8`
evaluates to `C8val = [[−7/625, 0], [24/625, 0]]`. -/
theorem covariance_r8_eq : covariance la8 r8 = C8val := by
  ext i k
  fin_cases i <;> fin_cases k <;>
    simp [covariance, DsolveMat, r8, hankelRegressor, la8, svdApplyMat, C8val,
      posRecip, s8, U8, V8h, Matrix.mul_apply, Matrix.transpose_apply,
      Matrix.diagonal_apply, Fin.sum_univ_two, Matrix.one_apply, Matrix.of_apply] <;>
    norm_num

/-- Helper: the `fuel + 1` unfolding of the loop body, when the guard
holds. -/
theorem psIterAux_step_true {n : ℕ} (la : LinAlg n) (Ykm M : Mat n) (j : Vec n)
    (H0 : ℚ) (upd : Vec n → HankelRegressor n → Vec n) (tol : ℚ) (maxIter : ℕ)
    (fuel : ℕ) (s : PSLoopState n)
    (h : anyExceeds tol s.pi s.piOld ∧ s.count ≤ maxIter) :
    psIterAux la Ykm M j H0 upd tol maxIter (fuel + 1) s =
      psIterAux la Ykm M j H0 upd tol maxIter fuel
        ⟨upd s.pi s.sol, s.pi, fit_powerspectrum la Ykm M j H0 (upd s.pi s.sol),
          s.count + 1⟩ := by
  rw [psIterAux, if_pos h]

/-- Helper: the `fuel + 1` unfolding of the loop exit, when the guard
fails. -/
theorem psIterAux_step_false {n : ℕ} (la : LinAlg n) (Ykm M : Mat n) (j : Vec n)
    (H0 : ℚ) (upd : Vec n → HankelRegressor n → Vec n) (tol : ℚ) (maxIter : ℕ)
    (fuel : ℕ) (s : PSLoopState n)
    (h : ¬(anyExceeds tol s.pi s.piOld ∧ s.count ≤ maxIter)) :
    psIterAux la Ykm M j H0 upd tol maxIter (fuel + 1) s = s := by
  rw [psIterAux, if_neg h]

/-- Helper: with enough fuel the loop always reaches its exit: the final
step counter stays `≤ maxIter + 1`, and at the final state the guard
`np.any(...) and count <= max_iter` is false. -/
theorem psIterAux_exit {n : ℕ} (la : LinAlg n) (Ykm M : Mat n) (j : Vec n)
    (H0 : ℚ) (upd : Vec n → HankelRegressor n → Vec n) (tol : ℚ) (maxIter : ℕ)
    (fuel : ℕ) :
    ∀ s : PSLoopState n, maxIter + 2 ≤ fuel + s.count → s.count ≤ maxIter + 1 →
      (psIterAux la Ykm M j H0 upd tol maxIter fuel s).count ≤ maxIter + 1 ∧
      ¬(anyExceeds tol (psIterAux la Ykm M j H0 upd tol maxIter fuel s).pi
            (psIterAux la Ykm M j H0 upd tol maxIter fuel s).piOld ∧
          (psIterAux la Ykm M j H0 upd tol maxIter fuel s).count ≤ maxIter) := by
  induction fuel with
  | zero => intro s h1 h2; omega
  | succ m ih =>
      intro s h1 h2
      by_cases hc : anyExceeds tol s.pi s.piOld ∧ s.count ≤ maxIter
      · rw [psIterAux_step_true la Ykm M j H0 upd tol maxIter m s hc]
        refine ih _ ?_ ?_
        · show maxIter + 2 ≤ m + (s.count + 1); omega
        · show s.count + 1 ≤ maxIter + 1
          have := hc.2; omega
      · rw [psIterAux_step_false la Ykm M j H0 upd tol maxIter m s hc]
        exact ⟨h2, hc⟩

/-- Helper: once at least one loop step has run, the `fit` stored in the
state is exactly `fit_powerspectrum` of the current spectrum (the body
reassigns `fit = self.fit_powerspectrum(pi)` right after updating `pi`). -/
theorem psIterAux_sol_inv {n : ℕ} (la : LinAlg n) (Ykm M : Mat n) (j : Vec n)
    (H0 : ℚ) (upd : Vec n → HankelRegressor n → Vec n) (tol : ℚ) (maxIter : ℕ)
    (fuel : ℕ) :
    ∀ s : PSLoopState n,
      (1 ≤ s.count → s.sol = fit_powerspectrum la Ykm M j H0 s.pi) →
      1 ≤ (psIterAux la Ykm M j H0 upd tol maxIter fuel s).count →
      (psIterAux la Ykm M j H0 upd tol maxIter fuel s).sol =
        fit_powerspectrum la Ykm M j H0
          (psIterAux la Ykm M j H0 upd tol maxIter fuel s).pi := by
  induction fuel with
  | zero => intro s hs h1; exact hs h1
  | succ m ih =>
      intro s hs h1
      by_cases hc : anyExceeds tol s.pi s.piOld ∧ s.count ≤ maxIter
      · rw [psIterAux_step_true la Ykm M j H0 upd tol maxIter m s hc] at h1 ⊢
        exact ih _ (fun _ => rfl) h1
      · rw [psIterAux_step_false la Ykm M j H0 upd tol maxIter m s hc] at h1 ⊢
        exact hs h1

/-- Claim C1 (amended): the power-spectrum iteration of `FrankFitter.fit`
terminates, stopping either because every mode satisfies the element-wise
relative tolerance `|p_next − p_prev| ≤ tol·|p_next|` or because the step
counter reached `max_iter + 1` (the guard is `count <= max_iter` with
`count` counting completed steps, so up to `max_iter + 1` — not
`max_iter` — steps are executed); in either case the best available
iterate's fit is returned as the result. -/
theorem frank_fit_iteration_cap {n : ℕ} (la : LinAlg n) (Ykm M : Mat n)
    (j : Vec n) (H0 : ℚ) (upd : Vec n → HankelRegressor n → Vec n) (tol : ℚ)
    (maxIter : ℕ) (pi0 : Vec n) (sol0 : HankelRegressor n) :
    (psIter la Ykm M j H0 upd tol maxIter pi0 sol0).count ≤ maxIter + 1 ∧
    (¬ anyExceeds tol (psIter la Ykm M j H0 upd tol maxIter pi0 sol0).pi
        (psIter la Ykm M j H0 upd tol maxIter pi0 sol0).piOld ∨
      (psIter la Ykm M j H0 upd tol maxIter pi0 sol0).count = maxIter + 1) ∧
    frankFitResult la Ykm M j H0 upd tol maxIter pi0 sol0 =
      (psIter la Ykm M j H0 upd tol maxIter pi0 sol0).sol := by
  have hdef : psIter la Ykm M j H0 upd tol maxIter pi0 sol0 =
      psIterAux la Ykm M j H0 upd tol maxIter (maxIter + 2) ⟨pi0, 0, sol0, 0⟩ := rfl
  obtain ⟨h1, h2⟩ := psIterAux_exit la Ykm M j H0 upd tol maxIter (maxIter + 2)
    ⟨pi0, 0, sol0, 0⟩ (by show maxIter + 2 ≤ maxIter + 2 + 0; omega)
    (by show (0 : ℕ) ≤ maxIter + 1; omega)
  rw [hdef]
  refine ⟨h1, ?_, rfl⟩
  by_cases ha : anyExceeds tol
      (psIterAux la Ykm M j H0 upd tol maxIter (maxIter + 2) ⟨pi0, 0, sol0, 0⟩).pi
      (psIterAux la Ykm M j H0 upd tol maxIter (maxIter + 2) ⟨pi0, 0, sol0, 0⟩).piOld
  · right
    have hn : ¬ ((psIterAux la Ykm M j H0 upd tol maxIter (maxIter + 2)
        ⟨pi0, 0, sol0, 0⟩).count ≤ maxIter) := fun hle => h2 ⟨ha, hle⟩
    omega
  · left; exact ha

/-- Helper: concrete run A — `max_iter = 0`, tolerance `1/2`, initial
spectrum `(1)`, update proposing `(3)`.  The loop body executes once
(`count <= max_iter` admits the step at `count = 0`), ending at
`pi = (3)`, `pi_old = (1)`, `count = 1`, with the tolerance still
violated. -/
theorem runA_eq : psIter la1 1 1 0 0 updK (1 / 2) 0 onePS sol1 =
    ⟨threePS, onePS, fit_powerspectrum la1 1 1 0 0 threePS, 1⟩ := by
  have h1 : anyExceeds (1 / 2 : ℚ) onePS (0 : Vec 1) ∧ (0 : ℕ) ≤ 0 :=
    ⟨⟨0, by norm_num [onePS]⟩, Nat.le_refl 0⟩
  have h2 : ¬ (anyExceeds (1 / 2 : ℚ) threePS onePS ∧ (1 : ℕ) ≤ 0) :=
    fun hc => Nat.not_succ_le_zero 0 hc.2
  show psIterAux la1 1 1 0 0 updK (1 / 2) 0 (1 + 1) ⟨onePS, 0, sol1, 0⟩ = _
  rw [psIterAux_step_true la1 1 1 0 0 updK (1 / 2) 0 1 ⟨onePS, 0, sol1, 0⟩ h1]
  exact psIterAux_step_false la1 1 1 0 0 updK (1 / 2) 0 0 _ h2

/-- Helper: concrete run B — `max_iter = 5`, tolerance `1/2`, initial
spectrum `(3)`, identity update.  One step meets the tolerance exactly and
the loop exits converged with `count = 1 ≤ max_iter`. -/
theorem runB_eq : psIter la1 1 1 0 0 updId1 (1 / 2) 5 threePS sol1 =
    ⟨threePS, threePS, fit_powerspectrum la1 1 1 0 0 threePS, 1⟩ := by
  have h1 : anyExceeds (1 / 2 : ℚ) threePS (0 : Vec 1) ∧ (0 : ℕ) ≤ 5 :=
    ⟨⟨0, by norm_num [threePS]⟩, by omega⟩
  have h2 : ¬ (anyExceeds (1 / 2 : ℚ) threePS threePS ∧ (1 : ℕ) ≤ 5) := by
    rintro ⟨⟨k, hk⟩, -⟩
    norm_num [threePS] at hk
  show psIterAux la1 1 1 0 0 updId1 (1 / 2) 5 (6 + 1) ⟨threePS, 0, sol1, 0⟩ = _
  rw [psIterAux_step_true la1 1 1 0 0 updId1 (1 / 2) 5 6 ⟨threePS, 0, sol1, 0⟩ h1]
  exact psIterAux_step_false la1 1 1 0 0 updId1 (1 / 2) 5 5 _ h2

/-- Claim C1 counterexample: with `max_iter = 0` the claim permits zero
iteration steps, yet this concrete run executes one step (`count = 1` at
exit) while the tolerance is still violated — so "no more than max_iter
iteration steps are ever executed" is false of the code (the guard is
`count <= max_iter`, an off-by-one against the claim). -/
theorem frank_fit_iteration_cap_cex :
    (psIter la1 1 1 0 0 updK (1 / 2) 0 onePS sol1).count = 1 ∧
    anyExceeds (1 / 2) (psIter la1 1 1 0 0 updK (1 / 2) 0 onePS sol1).pi
      (psIter la1 1 1 0 0 updK (1 / 2) 0 onePS sol1).piOld := by
  rw [runA_eq]
  exact ⟨rfl, ⟨0, by norm_num [threePS, onePS]⟩⟩

/-- Claim C2 (amended): the returned result of `FrankFitter.fit` carries no
convergence flag at all — whenever at least one loop step ran, the
returned object is exactly `fit_powerspectrum` applied to the final
spectrum, a function of that spectrum alone, with no indication of whether
the loop stopped by tolerance or by hitting the cap. -/
theorem frank_fit_no_convergence_flag {n : ℕ} (la : LinAlg n) (Ykm M : Mat n)
    (j : Vec n) (H0 : ℚ) (upd : Vec n → HankelRegressor n → Vec n) (tol : ℚ)
    (maxIter : ℕ) (pi0 : Vec n) (sol0 : HankelRegressor n)
    (h : 1 ≤ (psIter la Ykm M j H0 upd tol maxIter pi0 sol0).count) :
    frankFitResult la Ykm M j H0 upd tol maxIter pi0 sol0 =
      fit_powerspectrum la Ykm M j H0
        (psIter la Ykm M j H0 upd tol maxIter pi0 sol0).pi :=
  psIterAux_sol_inv la Ykm M j H0 upd tol maxIter (maxIter + 2) ⟨pi0, 0, sol0, 0⟩
    (fun h0 => absurd h0 (Nat.not_succ_le_zero 0)) h

/-- Witness for C2's amended theorem at concrete run A, where one step
ran. -/
theorem frank_fit_no_convergence_flag_witness :
    1 ≤ (psIter la1 1 1 0 0 updK (1 / 2) 0 onePS sol1).count ∧
    frankFitResult la1 1 1 0 0 updK (1 / 2) 0 onePS sol1 =
      fit_powerspectrum la1 1 1 0 0
        (psIter la1 1 1 0 0 updK (1 / 2) 0 onePS sol1).pi :=
  ⟨by rw [runA_eq],
    frank_fit_no_convergence_flag la1 1 1 0 0 updK (1 / 2) 0 onePS sol1
      (by rw [runA_eq])⟩

/-- Claim C2 counterexample: run A reaches the cap with the tolerance
still violated (`count = max_iter + 1 = 1`, `anyExceeds` true at exit),
run B converges (`count = 1 ≤ max_iter = 5`, `anyExceeds` false at exit),
and both return the very same `HankelRegressor`: the result of a capped
fit is observationally identical to that of a converged fit, so no flag or
indicator distinguishes them. -/
theorem frank_fit_no_convergence_flag_cex :
    ((psIter la1 1 1 0 0 updK (1 / 2) 0 onePS sol1).count = 0 + 1 ∧
      anyExceeds (1 / 2) (psIter la1 1 1 0 0 updK (1 / 2) 0 onePS sol1).pi
        (psIter la1 1 1 0 0 updK (1 / 2) 0 onePS sol1).piOld) ∧
    ((psIter la1 1 1 0 0 updId1 (1 / 2) 5 threePS sol1).count ≤ 5 ∧
      ¬ anyExceeds (1 / 2) (psIter la1 1 1 0 0 updId1 (1 / 2) 5 threePS sol1).pi
        (psIter la1 1 1 0 0 updId1 (1 / 2) 5 threePS sol1).piOld) ∧
    frankFitResult la1 1 1 0 0 updK (1 / 2) 0 onePS sol1 =
      frankFitResult la1 1 1 0 0 updId1 (1 / 2) 5 threePS sol1 := by
  have hA : frankFitResult la1 1 1 0 0 updK (1 / 2) 0 onePS sol1 =
      (psIter la1 1 1 0 0 updK (1 / 2) 0 onePS sol1).sol := rfl
  have hB : frankFitResult la1 1 1 0 0 updId1 (1 / 2) 5 threePS sol1 =
      (psIter la1 1 1 0 0 updId1 (1 / 2) 5 threePS sol1).sol := rfl
  rw [hA, hB, runA_eq, runB_eq]
  refine ⟨⟨rfl, ⟨0, by norm_num [threePS, onePS]⟩⟩, ⟨by show (1 : ℕ) ≤ 5; omega, ?_⟩, rfl⟩
  rintro ⟨k, hk⟩
  norm_num [threePS] at hk

/-- Claim C5: constructing the prior precision with a negative entry
`p k < 0` yields exactly the same matrix `Sinv` as constructing it with
that entry set to zero: the per-mode precision is `1/p` where `p > 0` and
`0` otherwise. -/
theorem sinv_negative_entry_eq_zero_entry {n : ℕ} (Ykm : Mat n) (p : Vec n)
    (k : Fin n) (h : p k < 0) :
    Sinv_of Ykm p = Sinv_of Ykm (Function.update p k 0) := by
  ext i l
  simp only [Sinv_of, Matrix.of_apply]
  refine Finset.sum_congr rfl fun m _ => ?_
  rcases eq_or_ne m k with rfl | hmk
  · have h1 : ¬ 0 < p m := not_lt.mpr h.le
    simp [posRecip, h1]
  · simp [posRecip, Function.update_noteq hmk]

/-- Witness for C5 at the concrete input `n = 1`, `Ykm = 1`,
`p = (−1)`, `k = 0`. -/
theorem sinv_negative_entry_eq_zero_entry_witness :
    (fun _ : Fin 1 => (-1 : ℚ)) 0 < 0 ∧
      Sinv_of (1 : Mat 1) (fun _ => -1) =
        Sinv_of (1 : Mat 1) (Function.update (fun _ : Fin 1 => (-1 : ℚ)) 0 0) :=
  ⟨by norm_num,
    sinv_negative_entry_eq_zero_entry (1 : Mat 1) (fun _ => -1) 0 (by norm_num)⟩

/-- Helper: a chunk contribution to `M` is additive over concatenation. -/
theorem chunkM_append {n : ℕ} (coeff : ℚ → Fin n → ℚ) (a b : List (ℚ × ℚ × ℚ)) :
    chunkM coeff (a ++ b) = chunkM coeff a + chunkM coeff b := by
  ext m m'
  simp [chunkM, Matrix.add_apply]

/-- Helper: a chunk contribution to `j` is additive over concatenation. -/
theorem chunkJ_append {n : ℕ} (coeff : ℚ → Fin n → ℚ) (a b : List (ℚ × ℚ × ℚ)) :
    chunkJ coeff (a ++ b) = chunkJ coeff a + chunkJ coeff b := by
  funext m
  simp [chunkJ, Pi.add_apply]

/-- Helper: the empty chunk contributes nothing to `M`. -/
theorem chunkM_nil {n : ℕ} (coeff : ℚ → Fin n → ℚ) :
    chunkM coeff ([] : List (ℚ × ℚ × ℚ)) = 0 := by
  ext m m'
  simp [chunkM]

/-- Helper: the empty chunk contributes nothing to `j`. -/
theorem chunkJ_nil {n : ℕ} (coeff : ℚ → Fin n → ℚ) :
    chunkJ coeff ([] : List (ℚ × ℚ × ℚ)) = 0 := by
  funext m
  simp [chunkJ]

/-- Helper: closed form of the chunked accumulation loop — with positive
chunk size and enough fuel it adds exactly the whole data's contribution,
independently of the chunk size. -/
theorem buildLoop_eq {n : ℕ} (coeff : ℚ → Fin n → ℚ) (Nstep : ℕ) (hN : 1 ≤ Nstep) :
    ∀ (fuel : ℕ) (d : List (ℚ × ℚ × ℚ)) (M : Mat n) (j : Vec n), d.length ≤ fuel →
      buildLoop coeff Nstep fuel d M j = (M + chunkM coeff d, j + chunkJ coeff d) := by
  intro fuel
  induction fuel with
  | zero =>
      intro d M j hd
      have hdnil : d = [] := List.length_eq_zero.mp (Nat.le_zero.mp hd)
      subst hdnil
      rw [show buildLoop coeff Nstep 0 ([] : List (ℚ × ℚ × ℚ)) M j = (M, j) from rfl,
        chunkM_nil, chunkJ_nil, add_zero, add_zero]
  | succ m ih =>
      intro d M j hd
      cases d with
      | nil =>
          rw [show buildLoop coeff Nstep (m + 1) ([] : List (ℚ × ℚ × ℚ)) M j = (M, j)
              from rfl, chunkM_nil, chunkJ_nil, add_zero, add_zero]
      | cons x xs =>
          rw [show buildLoop coeff Nstep (m + 1) (x :: xs) M j =
              buildLoop coeff Nstep m ((x :: xs).drop Nstep)
                (M + chunkM coeff ((x :: xs).take Nstep))
                (j + chunkJ coeff ((x :: xs).take Nstep)) from rfl]
          rw [ih ((x :: xs).drop Nstep) _ _
            (by rw [List.length_drop]; simp only [List.length_cons] at hd ⊢; omega)]
          rw [add_assoc, add_assoc, ← chunkM_append, ← chunkJ_append,
            List.take_append_drop]

/-- Claim C6: chunked and single-chunk design-matrix assembly on identical
equal-length data produce the same `M`, `j` and `H0` — over exact
arithmetic, exactly equal (any difference in floating point is only the
accumulation order of the same sums). -/
theorem build_matrices_chunking_eq {n : ℕ} (coeff : ℚ → Fin n → ℚ)
    (logw : ℚ → ℚ) (Nstep : ℕ) (q V weights : List ℚ) (hN : 1 ≤ Nstep) :
    build_matrices coeff logw Nstep q V weights =
      build_matrices coeff logw V.length q V weights := by
  unfold build_matrices
  rcases Nat.eq_zero_or_pos V.length with h0 | hpos
  · have hV : V = [] := List.length_eq_zero.mp h0
    subst hV
    simp [List.zip_nil_right, buildLoop]
  · rw [buildLoop_eq coeff Nstep hN (q.zip (weights.zip V)).length
        (q.zip (weights.zip V)) 0 0 le_rfl,
      buildLoop_eq coeff V.length hpos (q.zip (weights.zip V)).length
        (q.zip (weights.zip V)) 0 0 le_rfl]

/-- Witness for C6: a concrete three-sample data set assembled with chunk
size 2 and in one chunk of 3. -/
theorem build_matrices_chunking_eq_witness :
    1 ≤ 2 ∧ build_matrices cW zW 2 [1, 2, 3] [4, 5, 6] [1, 1, 1] =
      build_matrices cW zW 3 [1, 2, 3] [4, 5, 6] [1, 1, 1] :=
  ⟨by omega,
    build_matrices_chunking_eq cW zW 2 [1, 2, 3] [4, 5, 6] [1, 1, 1] (by omega)⟩

/-- Claim C7 (amended): `_build_matrices` performs no validation of its
numeric input — an all-zero weights array is not rejected; the assembly
runs to completion and produces the silently singular system `M = 0`,
`j = 0`. -/
theorem build_matrices_no_validation {n : ℕ} (coeff : ℚ → Fin n → ℚ)
    (logw : ℚ → ℚ) (Nstep : ℕ) (q V : List ℚ) (hN : 1 ≤ Nstep) :
    (build_matrices coeff logw Nstep q V (List.replicate V.length 0)).1 = 0 ∧
    (build_matrices coeff logw Nstep q V (List.replicate V.length 0)).2.1 = 0 := by
  unfold build_matrices
  rw [buildLoop_eq coeff Nstep hN _ _ 0 0 le_rfl]
  constructor
  · show (0 : Mat n) + chunkM coeff (q.zip ((List.replicate V.length 0).zip V)) = 0
    rw [zero_add]
    ext m m'
    simp only [chunkM, Matrix.of_apply, Matrix.zero_apply]
    apply List.sum_eq_zero
    intro y hy
    simp only [List.mem_map] at hy
    obtain ⟨⟨tq, tw, tV⟩, ht, rfl⟩ := hy
    have hw : tw = 0 :=
      List.eq_of_mem_replicate (List.of_mem_zip (List.of_mem_zip ht).2).1
    rw [hw, mul_zero, zero_mul]
  · show (0 : Vec n) + chunkJ coeff (q.zip ((List.replicate V.length 0).zip V)) = 0
    rw [zero_add]
    funext m
    simp only [chunkJ, Pi.zero_apply]
    apply List.sum_eq_zero
    intro y hy
    simp only [List.mem_map] at hy
    obtain ⟨⟨tq, tw, tV⟩, ht, rfl⟩ := hy
    have hw : tw = 0 :=
      List.eq_of_mem_replicate (List.of_mem_zip (List.of_mem_zip ht).2).1
    rw [hw, mul_zero, zero_mul]

/-- Witness for C7's amended theorem on three concrete samples. -/
theorem build_matrices_no_validation_witness :
    1 ≤ 2 ∧
      ((build_matrices cW zW 2 [1, 2, 3] [4, 5, 6] [0, 0, 0]).1 = 0 ∧
        (build_matrices cW zW 2 [1, 2, 3] [4, 5, 6] [0, 0, 0]).2.1 = 0) :=
  ⟨by omega, build_matrices_no_validation cW zW 2 [1, 2, 3] [4, 5, 6] (by omega)⟩

/-- Claim C7 counterexample: the all-zero weights array `[0, 0, 0]` is not
rejected with an error before assembly — assembly completes and returns
the fully evaluated triple `M = 0`, `j = 0` (a silently singular system),
together with its `H0`. -/
theorem build_matrices_no_validation_cex :
    (build_matrices cW zW 2 [1, 2, 3] [4, 5, 6] [0, 0, 0]).1 = 0 ∧
    (build_matrices cW zW 2 [1, 2, 3] [4, 5, 6] [0, 0, 0]).2.1 = 0 ∧
    (build_matrices cW zW 2 [1, 2, 3] [4, 5, 6] [0, 0, 0]).2.2 = 0 := by
  unfold build_matrices
  rw [buildLoop_eq cW 2 (by omega) _ _ 0 0 le_rfl]
  refine ⟨?_, ?_, ?_⟩
  · show (0 : Mat 2) + chunkM cW (([1, 2, 3] : List ℚ).zip
        ((([0, 0, 0] : List ℚ)).zip ([4, 5, 6] : List ℚ))) = 0
    ext m m'
    simp [chunkM, cW]
  · show (0 : Vec 2) + chunkJ cW (([1, 2, 3] : List ℚ).zip
        ((([0, 0, 0] : List ℚ)).zip ([4, 5, 6] : List ℚ))) = 0
    funext m
    simp [chunkJ, cW]
  · simp [zW]

/-- Claim C3 (code bug): calling `log_likelihood` with `I` omitted on a
regressor that has a prior power spectrum raises
`AttributeError` (`self._Dsolve` does not exist; the method is `Dsolve`)
instead of returning the marginal likelihood.  Evaluation at the failing
input: a regressor with `p = (2)`. -/
theorem log_likelihood_marginal_with_prior_raises :
    logLikelihoodMarginal (hankelRegressor la1 1 1 (fun _ => 1) (some fun _ => 2) 0) =
      Except.error "AttributeError: HankelRegressor object has no attribute _Dsolve" :=
  rfl

/-- Claim C9 (code bug): `FrankFitter.log_prior` never returns the prior
density — its body reads the undefined name `pi` (the parameter is `p`),
so every call, with or without an explicit trial spectrum, raises
`NameError`. -/
theorem log_prior_raises_nameerror {n : ℕ} (p0 alpha wsmooth : ℚ)
    (psMAP : Vec n) (p : Option (Vec n)) :
    log_prior p0 alpha wsmooth psMAP p =
      Except.error "NameError: name pi is not defined" :=
  rfl

/-- Claim C10: `FourierBesselFitter.fit` passes the undefined name `w` to
`_build_matrices` (its parameter is `weights`), so every call raises
`NameError` before any solve, and no `HankelRegressor` is ever returned. -/
theorem fbf_fit_raises_nameerror (n : ℕ) (q V weights : List ℚ) :
    fourierBesselFit n q V weights =
      Except.error "NameError: name w is not defined" :=
  rfl

/-- Claim C4 (amended): the constructor attempts Cholesky on the posterior
precision `Dinv` first; if it succeeds the factor is recorded in `_Dchol`
(`_Dsvd = None`) and every later `Dsolve` call reuses it; on numerical
failure no error is raised — the SVD fallback records
`(U, s1, Vh)` with `s1 = np.where(s > 0, 1/s, 0)` (so non-positive
singular values are zeroed, while positive ones — however small — are
reciprocated), and every later `Dsolve` call reuses that triple. -/
theorem cholesky_then_svd_recorded {n : ℕ} (la : LinAlg n) (Ykm M : Mat n)
    (j : Vec n) (p : Option (Vec n)) (ln : ℚ) :
    (∀ c, la.choFactor (M + (p.map (Sinv_of Ykm)).getD 0) = some c →
      (hankelRegressor la Ykm M j p ln).Dchol = some c ∧
      (hankelRegressor la Ykm M j p ln).Dsvd = none ∧
      ∀ b, Dsolve la (hankelRegressor la Ykm M j p ln) b = la.choSolveVec c b) ∧
    (la.choFactor (M + (p.map (Sinv_of Ykm)).getD 0) = none →
      (hankelRegressor la Ykm M j p ln).Dchol = none ∧
      (hankelRegressor la Ykm M j p ln).Dsvd =
        some ((la.svd (M + (p.map (Sinv_of Ykm)).getD 0)).1,
          posRecip (la.svd (M + (p.map (Sinv_of Ykm)).getD 0)).2.1,
          (la.svd (M + (p.map (Sinv_of Ykm)).getD 0)).2.2) ∧
      ∀ b, Dsolve la (hankelRegressor la Ykm M j p ln) b =
        svdApplyVec (la.svd (M + (p.map (Sinv_of Ykm)).getD 0)).1
          (posRecip (la.svd (M + (p.map (Sinv_of Ykm)).getD 0)).2.1)
          (la.svd (M + (p.map (Sinv_of Ykm)).getD 0)).2.2 b) := by
  constructor
  · intro c hc
    simp only [hankelRegressor, Dsolve, hc]
    exact ⟨trivial, trivial, fun _ => trivial⟩
  · intro hc
    simp only [hankelRegressor, Dsolve, hc]
    exact ⟨trivial, trivial, fun _ => trivial⟩

/-- Witness for C4's amended theorem on the concrete Cholesky-failure input
`MN`: the hypothesis `choFactor = none` is discharged by `rfl` and the
recorded SVD triple is reused by a concrete `Dsolve` call. -/
theorem cholesky_then_svd_recorded_witness :
    (hankelRegressor laNZ (1 : Mat 2) MN (0 : Vec 2) none 0).Dchol = none ∧
    Dsolve laNZ (hankelRegressor laNZ (1 : Mat 2) MN (0 : Vec 2) none 0)
        (fun _ => 1) =
      svdApplyVec (laNZ.svd (MN + ((Option.map (Sinv_of (1 : Mat 2)) none).getD 0))).1
        (posRecip (laNZ.svd (MN + ((Option.map (Sinv_of (1 : Mat 2)) none).getD 0))).2.1)
        (laNZ.svd (MN + ((Option.map (Sinv_of (1 : Mat 2)) none).getD 0))).2.2
        (fun _ => 1) :=
  ⟨((cholesky_then_svd_recorded laNZ (1 : Mat 2) MN (0 : Vec 2) none 0).2 rfl).1,
    ((cholesky_then_svd_recorded laNZ (1 : Mat 2) MN (0 : Vec 2) none 0).2 rfl).2.2
      (fun _ => 1)⟩

/-- Claim C4 counterexample: near-zero singular values are NOT treated as
exactly zero.  On `MN = diag(10⁻⁹, 0)` (where Cholesky fails and
`(I, (10⁻⁹, 0), I)` is a valid SVD, as the first conjuncts record), the
constructed regressor stores `s1 0 = 10⁹`: the near-zero singular value
`10⁻⁹` was reciprocated, not zeroed. -/
theorem cholesky_then_svd_recorded_cex :
    ((1 : Mat 2) * Matrix.diagonal sNZ * (1 : Mat 2) = MN) ∧
    MN.transpose = MN ∧
    sNZ 0 = 1 / 1000000000 ∧
    ((hankelRegressor laNZ 1 MN (0 : Vec 2) none 0).Dsvd.map fun t => t.2.1 0) =
      some 1000000000 := by
  refine ⟨by rw [Matrix.one_mul, Matrix.mul_one]; rfl, Matrix.diagonal_transpose sNZ, rfl, ?_⟩
  show some (posRecip sNZ 0) = some 1000000000
  norm_num [posRecip, sNZ]

/-- Claim C8 (code bug): on the SVD-fallback path the `covariance` property
is neither symmetric nor positive semi-definite.  `M8 = [[9,12],[12,16]]`
is symmetric PSD (a rank-one outer product, as the second conjunct
certifies) and `(U8, s8, V8h)` is a valid SVD of it (first, third, fourth
and fifth conjuncts); the Cholesky attempt fails, and the computed
covariance `Vhᵀ·Uᵀ·diag(s1)` — the result of numpy broadcasting `s1` over
the columns of `U.T @ eye(2)` in `Dsolve` — is asymmetric, has a negative
diagonal entry, and does not even satisfy the pseudo-inverse identity
`M·C·M = M` that the correct `Vᵀ·diag(s1)·Uᵀ` would. -/
theorem covariance_svd_path_not_psd :
    M8.transpose = M8 ∧
    M8 = Matrix.vecMulVec v8 v8 ∧
    U8 * U8.transpose = 1 ∧
    V8h * V8h.transpose = 1 ∧
    U8 * Matrix.diagonal s8 * V8h = M8 ∧
    r8.Dchol = none ∧
    (covariance la8 r8).transpose ≠ covariance la8 r8 ∧
    covariance la8 r8 0 0 < 0 ∧
    M8 * covariance la8 r8 * M8 ≠ M8 := by
  refine ⟨?_, ?_, ?_, ?_, ?_, rfl, ?_, ?_, ?_⟩
  · ext i k
    simp only [M8, Matrix.transpose_apply, Matrix.of_apply]
    ring
  · ext i k
    simp [M8, Matrix.vecMulVec_apply]
  · ext i k
    fin_cases i <;> fin_cases k <;>
      simp [U8, Matrix.mul_apply, Matrix.transpose_apply, Fin.sum_univ_two,
        Matrix.one_apply, Matrix.of_apply] <;> norm_num
  · ext i k
    fin_cases i <;> fin_cases k <;>
      simp [V8h, Matrix.mul_apply, Matrix.transpose_apply, Fin.sum_univ_two,
        Matrix.one_apply, Matrix.of_apply] <;> norm_num
  · ext i k
    fin_cases i <;> fin_cases k <;>
      simp [U8, V8h, s8, M8, v8, Matrix.mul_apply, Matrix.diagonal_apply,
        Fin.sum_univ_two, Matrix.of_apply] <;> norm_num
  · rw [covariance_r8_eq]
    intro h
    have h10 := congrFun (congrFun h 0) 1
    simp [C8val, Matrix.transpose_apply] at h10
  · rw [covariance_r8_eq]
    norm_num [C8val]
  · rw [covariance_r8_eq]
    intro h
    have h00 := congrFun (congrFun h 0) 0
    simp [C8val, M8, v8, Matrix.mul_apply, Fin.sum_univ_two, Matrix.of_apply] at h00
    norm_num at h00

end Frankenstein
